import Mathlib

/-!
Shallow embedding of the task persistence and query layer of the
`local-task` CLI (SQLite/drizzle task tracker), together with proofs of
the specification claims about it.

The definitions mirror, file by file, the TypeScript sources:
`src/commands/add.ts`, `done.ts`, `wip.ts`, `search.ts` (search/remove),
the `get`/`list`/`status` commands, `src/utils/validation.ts` and the
string-width utilities, and the drizzle `tasks` table schema.  The SQLite
store is modelled as a list of rows in rowid (insertion) order; a SELECT
without ORDER BY returns rows in that order, and `task[0]` is the head of
the filtered list.
-/

deriving instance DecidableEq for Except

namespace LocalTask

/-- Task status: the `status` column is constrained to `{wip, done}`
(drizzle `text("status", { enum: ["wip", "done"] })`). -/
inductive Status where
  | wip
  | done
deriving DecidableEq, Repr

/-- One row of the `tasks` table (drizzle schema in `src/db/schema.ts`).
Timestamps are unix epoch numbers; nullable text columns are `Option`. -/
structure Task where
  id : Nat
  customId : String
  category : String
  name : Option String
  description : Option String
  status : Status
  comment : Option String
  createdAt : Nat
  updatedAt : Nat
deriving DecidableEq, Repr

/-- The persisted store: rows in rowid order plus the AUTOINCREMENT
counter for the next `id`. -/
structure Store where
  rows : List Task
  nextId : Nat
deriving Repr

/-- Models the JavaScript regex test `/^\d+$/.test(s)`: one or more ASCII
digits and nothing else. -/
def allDigits (s : String) : Bool :=
  !s.data.isEmpty && s.data.all Char.isDigit

/-- Numeric value of a digit string (the value `Number.parseInt` yields on
a string matching `/^\d+$/`). -/
def digitsVal (s : String) : Nat :=
  s.data.foldl (fun n c => n * 10 + (c.toNat - 48)) 0

/-- Value of the maximal leading digit run of a character list; `none`
when the first character is not a digit (`parseInt` returns `NaN`). -/
def digitsRunVal (cs : List Char) : Option Nat :=
  let run := cs.takeWhile Char.isDigit
  if run.isEmpty then none
  else some (run.foldl (fun n c => n * 10 + (c.toNat - 48)) 0)

/-- Models `Number.parseInt(s, 10)`: skip leading whitespace, an optional
sign, then the maximal run of decimal digits; `none` models `NaN`. -/
def jsParseInt (s : String) : Option Int :=
  match s.data.dropWhile Char.isWhitespace with
  | '-' :: rest => Option.map (fun n : Nat => -(n : Int)) (digitsRunVal rest)
  | '+' :: rest => Option.map (fun n : Nat => (n : Int)) (digitsRunVal rest)
  | cs => Option.map (fun n : Nat => (n : Int)) (digitsRunVal cs)

/-- Models `s.trim() === ""`: true exactly when every character of `s` is
whitespace (so trimming leaves the empty string). -/
def isBlank (s : String) : Bool :=
  s.data.all Char.isWhitespace

/-- `validateTaskId` from `src/utils/validation.ts`: reject when the
string is empty, blank, or fails `/^\d+$/`; then parse and reject a value
`<= 0`.  Returns the accepted id, `none` standing for the thrown
`Invalid task ID` error. -/
def validateTaskId (id : String) : Option Nat :=
  if id == "" || isBlank id || !allDigits id then none
  else
    match jsParseInt id with
    | none => none
    | some v => if v ≤ 0 then none else some v.toNat

/-- Errors surfaced by the id-addressed commands. -/
inductive CmdError where
  | invalidId
  | notFound
deriving DecidableEq, Repr

/-- Models `comment || null` in `done.ts`/`wip.ts`: an omitted or
empty-string comment is stored as NULL. -/
def commentOrNull (comment : Option String) : Option String :=
  match comment with
  | none => none
  | some c => if c == "" then none else some c

/-- Shared body of the `done` and `wip` commands (`src/commands/done.ts`,
`src/commands/wip.ts`): validate the id, UPDATE the row matched by
`(category, id)` setting `status` and `comment || null`; the schema's
`updatedAt` column carries `$onUpdate(() => new Date())`, so the UPDATE
also refreshes `updatedAt` to the current time.  `result.changes === 0`
becomes the `notFound` error. -/
def setStatus (now : Nat) (store : Store) (category : String) (id : String)
    (newStatus : Status) (comment : Option String) : Except CmdError Store :=
  match validateTaskId id with
  | none => .error .invalidId
  | some taskId =>
    if store.rows.any (fun t => t.category == category && t.id == taskId) then
      .ok { store with
        rows := store.rows.map (fun t =>
          if t.category == category && t.id == taskId then
            { t with status := newStatus, comment := commentOrNull comment,
                     updatedAt := now }
          else t) }
    else .error .notFound

/-- The `done` command. -/
def done (now : Nat) (store : Store) (category id : String)
    (comment : Option String) : Except CmdError Store :=
  setStatus now store category id .done comment

/-- The `wip` command. -/
def wip (now : Nat) (store : Store) (category id : String)
    (comment : Option String) : Except CmdError Store :=
  setStatus now store category id .wip comment

/-- The `remove` command (`src/commands/remove.ts`): validate the id,
DELETE the row matched by `(category, id)`; zero changes is `notFound`. -/
def remove (store : Store) (category id : String) : Except CmdError Store :=
  match validateTaskId id with
  | none => .error .invalidId
  | some taskId =>
    let remaining := store.rows.filter
      (fun t => !(t.category == category && t.id == taskId))
    if remaining.length == store.rows.length then .error .notFound
    else .ok { store with rows := remaining }

/-- The numeric-id candidacy test of the `get` command
(`src/commands/get.ts`):
`!Number.isNaN(id) && id >= 0 && /^\d+$/.test(idOrCustomId)` where
`id = Number.parseInt(idOrCustomId, 10)`. -/
def isValidNumericId (s : String) : Bool :=
  match jsParseInt s with
  | none => false
  | some v => decide (0 ≤ v) && allDigits s

/-- The diagnostic shape of the `get` not-found error: `byId` is the
`isValidNumericId` flag that selects between the
`Task not found with id:` and `Task not found with customId:` messages. -/
structure GetError where
  byId : Bool
  ident : String
deriving DecidableEq, Repr

/-- The `get` command (ResolveAndFetch): SELECT rows of the category
matching `id = parsed` (only when the string is a valid numeric id
candidate) OR `customId = literal`, and return the first row of the
result (`task[0]`); report not-found in id style or customId style
according to the candidacy flag. -/
def get (store : Store) (category idOrCustomId : String) :
    Except GetError Task :=
  match store.rows.filter (fun t =>
      t.category == category &&
        ((isValidNumericId idOrCustomId &&
            ((t.id : Int) == (jsParseInt idOrCustomId).getD 0))
          || t.customId == idOrCustomId)) with
  | t :: _ => .ok t
  | [] => .error ⟨isValidNumericId idOrCustomId, idOrCustomId⟩

/-- SQLite's LIKE character comparison: ASCII-case-insensitive, symmetric
(two characters compare equal when they are equal or are the upper/lower
case forms of the same ASCII letter). -/
def likeEq (a b : Char) : Bool :=
  a == b || (a.isUpper && b.toNat == a.toNat + 32)
    || (b.isUpper && a.toNat == b.toNat + 32)

/-- SQLite `LIKE ... ESCAPE '\'` pattern matching over code points:
`%` matches any run, `_` matches one character, a backslash makes the
following pattern character literal, everything else compares with
`likeEq`. -/
def likeMatch : List Char → List Char → Bool
  | [], [] => true
  | [], _ :: _ => false
  | '%' :: p, s =>
    likeMatch p s ||
      (match s with
       | [] => false
       | _ :: s2 => likeMatch ('%' :: p) s2)
  | '_' :: p, s =>
    (match s with
     | [] => false
     | _ :: s2 => likeMatch p s2)
  | '\\' :: c :: p, s =>
    (match s with
     | [] => false
     | c2 :: s2 => likeEq c c2 && likeMatch p s2)
  | c :: p, s =>
    (match s with
     | [] => false
     | c2 :: s2 => likeEq c c2 && likeMatch p s2)
termination_by p s => (s.length, p.length)

/-- The wildcard escaping of `search.ts`:
`query.replace(/[%_]/g, "\\$&")` prefixes every `%` and `_` with a
backslash. -/
def escapeLike (q : String) : String :=
  ⟨q.data.foldr (fun c acc =>
      if c == '%' || c == '_' then '\\' :: c :: acc else c :: acc) []⟩

/-- The `search` command (`src/commands/search.ts`): rows of the category
where `customId`, `name` or `description` matches
`'%' + escaped(query) + '%'` under `LIKE ... ESCAPE '\'`.  A NULL column
never matches (`NULL LIKE p` is not true in SQL). -/
def search (store : Store) (category query : String) : List Task :=
  store.rows.filter (fun t =>
    t.category == category &&
      (likeMatch ('%' :: (escapeLike query).data ++ ['%']) t.customId.data ||
        (match t.name with
         | some n => likeMatch ('%' :: (escapeLike query).data ++ ['%']) n.data
         | none => false) ||
        (match t.description with
         | some d =>
            likeMatch ('%' :: (escapeLike query).data ++ ['%']) d.data
         | none => false)))

/-- One entry of the JSON batch accepted by `add` after zod validation
(`taskSchema`): required string `customId`, optional strings, optional
status restricted to `{wip, done}`. -/
structure TaskItem where
  customId : String
  name : Option String
  description : Option String
  status : Option Status
  comment : Option String
deriving DecidableEq, Repr

/-- One upsert of `add.ts`: INSERT with
`onConflictDoUpdate(target: [customId, category])`.  On conflict the
existing row keeps `id`, `createdAt`, `customId`, `category`; the SET
clause contains only the entries that are defined — drizzle's
`mapUpdateSet` drops `undefined` values — so an omitted `name`,
`description` or `comment` leaves the old column value unchanged
(`Option.or`), while `status` is always present (`task.status || "wip"`)
and `updatedAt` is refreshed by the schema's `$onUpdate` clause.
Otherwise a new row is appended with a fresh AUTOINCREMENT id, the
item's fields (absent optional fields become NULL), and both timestamps
set to now. -/
def upsertOne (now : Nat) (category : String) (store : Store)
    (item : TaskItem) : Store :=
  if store.rows.any (fun t =>
      t.customId == item.customId && t.category == category) then
    { store with
      rows := store.rows.map (fun t =>
        if t.customId == item.customId && t.category == category then
          { t with
            name := item.name.or t.name,
            description := item.description.or t.description,
            status := item.status.getD .wip,
            comment := item.comment.or t.comment,
            updatedAt := now }
        else t) }
  else
    { rows := store.rows ++
        [{ id := store.nextId, customId := item.customId,
           category := category, name := item.name,
           description := item.description,
           status := item.status.getD .wip, comment := item.comment,
           createdAt := now, updatedAt := now }],
      nextId := store.nextId + 1 }

/-- The loop of `add.ts`: items are applied one at a time in input
order. -/
def upsertBatch (now : Nat) (category : String) (items : List TaskItem)
    (store : Store) : Store :=
  items.foldl (upsertOne now category) store

/-- JSON values, the result of `JSON.parse` on the `add` input. -/
inductive Json where
  | null
  | bool (b : Bool)
  | num (n : Int)
  | str (s : String)
  | arr (elems : List Json)
  | obj (fields : List (String × Json))

/-- Field lookup in a JSON object; `none` models an absent property. -/
def getField (fields : List (String × Json)) (k : String) : Option Json :=
  (fields.find? (fun p => p.1 == k)).map (fun p => p.2)

/-- zod `z.string().optional()`: absent is fine, a present value must be
a string (null or any other type is a validation issue). -/
def parseOptString : Option Json → Except String (Option String)
  | none => .ok none
  | some (.str s) => .ok (some s)
  | some _ => .error "invalid_type: expected string"

/-- zod `z.enum(["wip", "done"]).optional()`. -/
def parseOptStatus : Option Json → Except String (Option Status)
  | none => .ok none
  | some (.str "wip") => .ok (some Status.wip)
  | some (.str "done") => .ok (some Status.done)
  | some _ => .error "invalid_enum_value: expected wip or done"

/-- zod `taskSchema.parse` on one element: an object with a required
string `customId` and optional `name`/`description`/`comment` strings and
`status` enum. -/
def parseTaskItem : Json → Except String TaskItem
  | .obj fields => do
    let customId ← match getField fields "customId" with
      | some (.str s) => Except.ok s
      | some _ => Except.error "invalid_type: customId must be a string"
      | none => Except.error "invalid_type: customId is required"
    let name ← parseOptString (getField fields "name")
    let description ← parseOptString (getField fields "description")
    let status ← parseOptStatus (getField fields "status")
    let comment ← parseOptString (getField fields "comment")
    pure { customId, name, description, status, comment }
  | _ => .error "invalid_type: expected object"

/-- Element-wise validation of the array, modelling
`z.array(taskSchema).parse`: any invalid element fails the whole parse. -/
def parseTaskList : List Json → Except String (List TaskItem)
  | [] => .ok []
  | j :: js =>
    match parseTaskItem j with
    | .error e => .error e
    | .ok item =>
      match parseTaskList js with
      | .error e => .error e
      | .ok items => .ok (item :: items)

/-- `z.array(taskSchema).parse(parsed)`: the top-level value must be an
array. -/
def parseTasks : Json → Except String (List TaskItem)
  | .arr elems => parseTaskList elems
  | _ => .error "invalid_type: expected array"

/-- The `add` command (`src/commands/add.ts`): the whole input is parsed
and validated first; only on success does the upsert loop run.  Returns
the resulting store and either the processed count or the validation
error. -/
def add (now : Nat) (store : Store) (category : String) (input : Json) :
    Store × Except String Nat :=
  match parseTasks input with
  | .error e => (store, .error e)
  | .ok tasks => (upsertBatch now category tasks store, .ok tasks.length)

/-- One line of the `status` command's summary: a category with its wip
and done counts. -/
structure SummaryRow where
  category : String
  wipCount : Nat
  doneCount : Nat
deriving DecidableEq, Repr

/-- The grouped query of `status.ts`:
`SELECT category, status, COUNT(*) ... GROUP BY category, status` —
one entry per distinct `(category, status)` pair present in the store,
with the number of rows of that pair. -/
def groupByCategoryStatus (rows : List Task) : List (String × Status × Nat) :=
  ((rows.map (fun t => (t.category, t.status))).dedup).map
    (fun p => (p.1, p.2,
      rows.countP (fun t => t.category == p.1 && t.status == p.2)))

/-- Transfer one grouped count into a summary row: a wip group sets the
wip count, a done group the done count. -/
def applyGroup (r : SummaryRow) (st : Status) (n : Nat) : SummaryRow :=
  match st with
  | .wip => { r with wipCount := n }
  | .done => { r with doneCount := n }

/-- One step of the summary-building loop of `status.ts`: look the
category up in the accumulated summaries (the JS `Map`), creating an
entry with both counts zero when absent, then store the group's count in
the matching status field. -/
def insertGroup (acc : List SummaryRow) (g : String × Status × Nat) :
    List SummaryRow :=
  if acc.any (fun r => r.category == g.1) then
    acc.map (fun r =>
      if r.category == g.1 then applyGroup r g.2.1 g.2.2 else r)
  else acc ++ [applyGroup ⟨g.1, 0, 0⟩ g.2.1 g.2.2]

/-- StatusSummary: the grouped counts folded into one summary row per
category (`status.ts`'s `summaryMap`, in insertion order). -/
def statusSummary (store : Store) : List SummaryRow :=
  (groupByCategoryStatus store.rows).foldl insertGroup []

/-- Width of a single code point, as classified by `stringWidth` in
`src/utils/string-width.ts`: control characters and combining
diacriticals count 0, full-width characters 2, everything else 1. -/
def charWidth (c : Char) : Nat :=
  let code := c.toNat
  if (code ≤ 0x1f ∧ code ≠ 0x20) ∨ (0x7f ≤ code ∧ code ≤ 0x9f) then 0
  else if 0x300 ≤ code ∧ code ≤ 0x36f then 0
  else if isFullWidth code then 2
  else 1
where
  /-- `isFullWidth` from `src/utils/string-width.ts`: the East-Asian-width
  classification table (CJK ideographs, Hangul, Kana, full-width ASCII
  variants with the half-width-katakana carve-out, CJK punctuation
  blocks, the common emoji block). -/
  isFullWidth (code : Nat) : Bool :=
    if (0x4e00 ≤ code ∧ code ≤ 0x9fff) ∨ (0x3400 ≤ code ∧ code ≤ 0x4dbf)
        ∨ (0x20000 ≤ code ∧ code ≤ 0x2a6df)
        ∨ (0x2a700 ≤ code ∧ code ≤ 0x2b73f)
        ∨ (0x2b740 ≤ code ∧ code ≤ 0x2b81f)
        ∨ (0x2b820 ≤ code ∧ code ≤ 0x2ceaf)
        ∨ (0xf900 ≤ code ∧ code ≤ 0xfaff)
        ∨ (0x2f800 ≤ code ∧ code ≤ 0x2fa1f) then true
    else if (0x1100 ≤ code ∧ code ≤ 0x11ff)
        ∨ (0xac00 ≤ code ∧ code ≤ 0xd7af)
        ∨ (0xa960 ≤ code ∧ code ≤ 0xa97f)
        ∨ (0xd7b0 ≤ code ∧ code ≤ 0xd7ff) then true
    else if (0x3040 ≤ code ∧ code ≤ 0x309f)
        ∨ (0x30a0 ≤ code ∧ code ≤ 0x30ff) then true
    else if 0xff01 ≤ code ∧ code ≤ 0xff60 then true
    else if 0xff61 ≤ code ∧ code ≤ 0xff9f then false
    else if code = 0x3000 ∨ (0x2e80 ≤ code ∧ code ≤ 0x2eff)
        ∨ (0x3000 ≤ code ∧ code ≤ 0x303f)
        ∨ (0x3200 ≤ code ∧ code ≤ 0x32ff)
        ∨ (0xfe10 ≤ code ∧ code ≤ 0xfe1f)
        ∨ (0xfe30 ≤ code ∧ code ≤ 0xfe4f)
        ∨ (0xfe50 ≤ code ∧ code ≤ 0xfe6f) then true
    else if 0x1f300 ≤ code ∧ code ≤ 0x1f9ff then true
    else false

/-- `stringWidth`: the visual width of a string, iterating by code point
(the source spreads the string to avoid splitting surrogate pairs) and
summing per-code-point widths; the empty string short-circuits to 0. -/
def stringWidth (s : String) : Nat :=
  if s == "" then 0
  else (s.data.map charWidth).sum

/-- The greedy loop of `truncateString`: consume code points from the
start while adding the next one keeps the accumulated width within the
target. -/
def takeWidth (targetWidth : Nat) : List Char → Nat → List Char
  | [], _ => []
  | c :: cs, currentWidth =>
    let w := charWidth c
    if targetWidth < currentWidth + w then []
    else c :: takeWidth targetWidth cs (currentWidth + w)

/-- `truncateString` from `src/utils/string-width.ts`: unchanged when it
already fits; when `maxWidth` does not even exceed the ellipsis width,
the ellipsis cut to `maxWidth` raw characters (`ellipsis.substring(0,
maxWidth)`); otherwise the greedy code-point prefix plus the ellipsis. -/
def truncateString (s : String) (maxWidth : Nat)
    (ellipsis : String := "...") : String :=
  if s == "" || maxWidth == 0 then ""
  else
    let fullWidth := stringWidth s
    if fullWidth ≤ maxWidth then s
    else
      let ellipsisWidth := stringWidth ellipsis
      if maxWidth ≤ ellipsisWidth then ⟨ellipsis.data.take maxWidth⟩
      else
        let targetWidth := maxWidth - ellipsisWidth
        (⟨takeWidth targetWidth s.data 0⟩ : String) ++ ellipsis

/-- `padEnd` from `src/utils/string-width.ts`: pad with copies of the fill
character up to the target visual width; never truncates. -/
def padEnd (s : String) (targetWidth : Nat) (fillChar : Char := ' ') : String :=
  let currentWidth := stringWidth s
  if targetWidth ≤ currentWidth then s
  else
    let fillWidth := charWidth fillChar
    let fillCount := (targetWidth - currentWidth) / fillWidth
    s ++ ⟨List.replicate fillCount fillChar⟩

/-- The printed output of the `status` command: the single
nothing-found line on an empty summary, otherwise header, separator and
one line per category (column widths from the content with the
column minimums 8/3/4 of `status.ts`). -/
def statusOutput (store : Store) : List String :=
  match statusSummary store with
  | [] => ["No tasks found in any category"]
  | summaries =>
    let catW := (summaries.map (fun r => stringWidth r.category)).foldl
      max 8
    let wipW := (summaries.map (fun r => stringWidth (toString r.wipCount))).foldl
      max 3
    let doneW := (summaries.map (fun r => stringWidth (toString r.doneCount))).foldl
      max 4
    (padEnd "Category" catW ++ " | " ++ padEnd "WIP" wipW ++ " | " ++
        padEnd "Done" doneW)
      :: (⟨List.replicate catW '-'⟩ ++ "-+-" ++ ⟨List.replicate wipW '-'⟩ ++
          "-+-" ++ ⟨List.replicate doneW '-'⟩)
      :: summaries.map (fun r =>
          padEnd r.category catW ++ " | " ++
            padEnd (toString r.wipCount) wipW ++ " | " ++
            padEnd (toString r.doneCount) doneW)

/-- The `(customId, category)` natural key of a row. -/
def taskKey (t : Task) : String × String := (t.customId, t.category)

/-- The store invariant maintained by the unique index
`tasks_customId_category_unique`: no two rows share a
`(customId, category)` pair. -/
def keysNodup (store : Store) : Prop :=
  (store.rows.map taskKey).Nodup

/-- The summary entry of a category: the first summary row carrying it
(the JS `Map` lookup). -/
def entryFor (c : String) (l : List SummaryRow) : Option SummaryRow :=
  l.find? (fun r => r.category == c)

/-- Folding only the groups of one category into a summary row; used to
characterise what the `status` loop computes for that category. -/
def foldGroupsFor (c : String) (gs : List (String × Status × Nat))
    (r : SummaryRow) : SummaryRow :=
  gs.foldl (fun acc g =>
    if g.1 = c then applyGroup acc g.2.1 g.2.2 else acc) r

/-! ### Helper lemmas about digit strings and `parseInt` -/

lemma digit_not_ws {c : Char} (h : c.isDigit = true) : c.isWhitespace = false := by
  by_contra hw
  rw [Bool.not_eq_false] at hw
  simp only [Char.isWhitespace, Bool.or_eq_true, decide_eq_true_eq] at hw
  rcases hw with ((h1 | h1) | h1) | h1 <;> (subst h1; revert h; decide)

lemma allDigits_data {s : String} (h : allDigits s = true) :
    s.data ≠ [] ∧ ∀ c ∈ s.data, c.isDigit = true := by
  unfold allDigits at h
  rw [Bool.and_eq_true] at h
  refine ⟨?_, by simpa [List.all_eq_true] using h.2⟩
  intro hnil
  rw [hnil] at h
  simp at h

lemma allDigits_jsParseInt {s : String} (h : allDigits s = true) :
    jsParseInt s = some ((digitsVal s : Nat) : Int) := by
  obtain ⟨hne, hall⟩ := allDigits_data h
  obtain ⟨c0, cs, hcs⟩ := List.exists_cons_of_ne_nil hne
  have hc0 : c0.isDigit = true := hall c0 (by rw [hcs]; exact List.mem_cons_self _ _)
  have hdrop : s.data.dropWhile Char.isWhitespace = c0 :: cs := by
    rw [hcs, List.dropWhile_cons, digit_not_ws hc0]
    simp
  have hrun : digitsRunVal (c0 :: cs) = some (digitsVal s) := by
    unfold digitsRunVal digitsVal
    have htake : s.data.takeWhile Char.isDigit = s.data :=
      List.takeWhile_eq_self_iff.mpr hall
    rw [← hcs, htake, hcs]
    simp
  have hminus : c0 ≠ '-' := by
    rintro rfl; revert hc0; decide
  have hplus : c0 ≠ '+' := by
    rintro rfl; revert hc0; decide
  unfold jsParseInt
  rw [hdrop]
  split
  · next rest heq =>
    exact absurd (List.cons.inj heq).1 hminus
  · next rest heq =>
    exact absurd (List.cons.inj heq).1 hplus
  · next =>
    rw [hrun]
    rfl

lemma allDigits_ne_empty {s : String} (h : allDigits s = true) :
    (s == "") = false := by
  obtain ⟨hne, -⟩ := allDigits_data h
  rcases s with ⟨l⟩
  rcases l with _ | ⟨c, cs⟩
  · exact absurd rfl hne
  · rfl

lemma allDigits_not_blank {s : String} (h : allDigits s = true) :
    isBlank s = false := by
  obtain ⟨hne, hall⟩ := allDigits_data h
  obtain ⟨c0, cs, hcs⟩ := List.exists_cons_of_ne_nil hne
  have hc0 : c0.isDigit = true := hall c0 (by rw [hcs]; exact List.mem_cons_self _ _)
  unfold isBlank
  rw [hcs]
  simp [digit_not_ws hc0]

lemma validateTaskId_allDigits {s : String} (hd : allDigits s = true) :
    validateTaskId s =
      if digitsVal s = 0 then none else some (digitsVal s) := by
  unfold validateTaskId
  rw [allDigits_ne_empty hd, allDigits_not_blank hd, hd,
    allDigits_jsParseInt hd]
  simp only [Bool.not_true, Bool.or_false, Bool.or_self, Bool.false_or,
    Bool.false_eq_true, if_false]
  rcases Nat.eq_zero_or_pos (digitsVal s) with hz | hz
  · rw [hz]
    simp
  · have h1 : ¬ ((digitsVal s : Int) ≤ 0) := by
      exact_mod_cast Nat.not_le.mpr hz
    rw [if_neg h1, if_neg (Nat.pos_iff_ne_zero.mp hz)]
    simp

lemma validateTaskId_not_allDigits {s : String} (hd : allDigits s = false) :
    validateTaskId s = none := by
  unfold validateTaskId
  rw [hd]
  simp

/-! ### C4: the strict numeric-id rule of `validateTaskId` -/

/-- **C4.** For every string `s`, the id-addressed mutations accept `s`
as a numeric id iff `s` matches `^[0-9]+$` and its integer value is
strictly positive; every other shape makes `validateTaskId` fail, and
then `setStatus` (done/wip) and `remove` return the invalid-identifier
error without touching the store. -/
theorem c4_strict_numeric_id (s : String) :
    ((validateTaskId s).isSome ↔ (allDigits s = true ∧ 0 < digitsVal s))
    ∧ (∀ now store category newStatus comment,
        validateTaskId s = none →
          setStatus now store category s newStatus comment =
            .error .invalidId)
    ∧ (∀ store category, validateTaskId s = none →
        remove store category s = .error .invalidId) := by
  refine ⟨?_, ?_, ?_⟩
  · constructor
    · intro hsome
      by_cases hd : allDigits s = true
      · refine ⟨hd, ?_⟩
        rw [validateTaskId_allDigits hd] at hsome
        by_contra hzero
        rw [Nat.not_lt, Nat.le_zero] at hzero
        rw [if_pos hzero] at hsome
        simp at hsome
      · rw [Bool.not_eq_true] at hd
        rw [validateTaskId_not_allDigits hd] at hsome
        simp at hsome
    · rintro ⟨hd, hpos⟩
      rw [validateTaskId_allDigits hd, if_neg (Nat.pos_iff_ne_zero.mp hpos)]
      rfl
  · intro now store category newStatus comment hnone
    unfold setStatus
    rw [hnone]
  · intro store category hnone
    unfold remove
    rw [hnone]

/-- Witness for C4 at concrete inputs: the shapes listed by the spec are
rejected, a genuine positive integer is accepted, and a rejected shape
makes `setStatus` and `remove` fail with the invalid-identifier error. -/
theorem c4_witness :
    (validateTaskId "0").isSome = false ∧
    (validateTaskId "-1").isSome = false ∧
    (validateTaskId "1.5").isSome = false ∧
    (validateTaskId "1e2").isSome = false ∧
    (validateTaskId "0xFF").isSome = false ∧
    (validateTaskId "+1").isSome = false ∧
    (validateTaskId "1a").isSome = false ∧
    (validateTaskId "").isSome = false ∧
    (validateTaskId "   ").isSome = false ∧
    (validateTaskId "42").isSome = true ∧
    setStatus 0 ⟨[], 1⟩ "c" "0xFF" .done none = .error .invalidId ∧
    remove ⟨[], 1⟩ "c" "0xFF" = .error .invalidId := by
  refine ⟨by decide, by decide, by decide, by decide, by decide, by decide,
    by decide, by decide, by decide, by decide, ?_, ?_⟩
  · exact (c4_strict_numeric_id "0xFF").2.1 0 ⟨[], 1⟩ "c" .done none (by decide)
  · exact (c4_strict_numeric_id "0xFF").2.2 ⟨[], 1⟩ "c" (by decide)

/-! ### C7: the numeric-candidate rule of `get` -/

lemma isValidNumericId_eq_allDigits (s : String) :
    isValidNumericId s = allDigits s := by
  by_cases hd : allDigits s = true
  · unfold isValidNumericId
    rw [allDigits_jsParseInt hd, hd]
    simp [Int.natCast_nonneg]
  · rw [Bool.not_eq_true] at hd
    unfold isValidNumericId
    rw [hd]
    cases jsParseInt s <;> simp

/-- **C7 (amended).** `get` treats the identifier as a numeric id
candidate exactly when it consists of one or more ASCII digits — the
code checks `parsed >= 0`, not `> 0`, so `"0"` *is* a candidate: the
lookup for `"0"` matches `id = 0` or `customId = "0"`, and a miss is
reported in id style (`byId = true`), not customId style. -/
theorem c7_amended_numeric_candidate :
    (∀ s, isValidNumericId s = allDigits s)
    ∧ isValidNumericId "0" = true
    ∧ get ⟨[], 1⟩ "c" "0" = .error ⟨true, "0"⟩ := by
  refine ⟨isValidNumericId_eq_allDigits, by decide, by decide⟩

/-- **C7 counterexample.** The claim says `"0"` is not a numeric id
candidate and a miss on `"0"` is reported customId-style; in the code
`"0"` passes the `id >= 0` check, and the not-found error for `"0"` on
an empty store is id-style (`byId = true`). -/
theorem c7_counterexample :
    isValidNumericId "0" = true ∧
      ¬ get ⟨[], 1⟩ "c" "0" = .error ⟨false, "0"⟩ := by
  constructor
  · decide
  · decide

/-! ### C3: resolution of an all-digit identifier in `get` -/

/-- The first row of the C3 counterexample store: inserted first
(rowid 1), its `customId` is the digit string `"2"`. -/
def c3taskA : Task :=
  ⟨1, "2", "c", none, none, .wip, none, 0, 0⟩

/-- The second row of the C3 counterexample store: rowid 2, so its `id`
equals the number the identifier `"2"` parses to. -/
def c3taskB : Task :=
  ⟨2, "b", "c", none, none, .wip, none, 0, 0⟩

/-- **C3 counterexample.** With a row of id 2 in the category and an
earlier row whose `customId` is the literal `"2"`, `get` returns the
earlier `customId` match, not the id match the claim promises. -/
theorem c3_counterexample :
    get ⟨[c3taskA, c3taskB], 3⟩ "c" "2" = .ok c3taskA
    ∧ c3taskA.id ≠ 2 ∧ c3taskA.customId = "2"
    ∧ c3taskB ∈ (⟨[c3taskA, c3taskB], 3⟩ : Store).rows
    ∧ c3taskB.id = 2 ∧ c3taskB.category = "c" := by
  refine ⟨by decide, by decide, by decide, ?_, by decide, by decide⟩
  simp [c3taskA, c3taskB]

/-- **C3 (amended).** For an all-digit identifier, `get` matches rows of
the category whose `id` equals the parsed integer **or** whose
`customId` equals the literal string, returning the first match in store
order (with no preference for the id match); it succeeds iff such a row
exists, and fails `NotFound` otherwise. -/
theorem c3_amended_resolution (store : Store) (category s : String)
    (hd : allDigits s = true) :
    (∀ t, get store category s = .ok t →
        t ∈ store.rows ∧ t.category = category ∧
          (t.id = digitsVal s ∨ t.customId = s))
    ∧ ((∃ t ∈ store.rows, t.category = category ∧
          (t.id = digitsVal s ∨ t.customId = s)) ↔
        ∃ t, get store category s = .ok t) := by
  have hnum : isValidNumericId s = true := by
    rw [isValidNumericId_eq_allDigits, hd]
  have hpred : ∀ t : Task,
      ((t.category == category &&
        ((isValidNumericId s && ((t.id : Int) == (jsParseInt s).getD 0))
          || t.customId == s)) = true) ↔
      (t.category = category ∧ (t.id = digitsVal s ∨ t.customId = s)) := by
    intro t
    rw [hnum, allDigits_jsParseInt hd]
    simp only [Option.getD_some, Bool.true_and, Bool.and_eq_true,
      Bool.or_eq_true, beq_iff_eq]
    constructor
    · rintro ⟨h1, h2 | h2⟩
      · exact ⟨h1, Or.inl (by exact_mod_cast h2)⟩
      · exact ⟨h1, Or.inr h2⟩
    · rintro ⟨h1, h2 | h2⟩
      · exact ⟨h1, Or.inl (by exact_mod_cast h2)⟩
      · exact ⟨h1, Or.inr h2⟩
  have hsound : ∀ t, get store category s = .ok t →
      t ∈ store.rows ∧ t.category = category ∧
        (t.id = digitsVal s ∨ t.customId = s) := by
    intro t ht
    unfold get at ht
    split at ht
    · next t0 rest hm =>
      cases ht
      have htf : t ∈ store.rows.filter (fun t =>
          t.category == category &&
            ((isValidNumericId s && ((t.id : Int) == (jsParseInt s).getD 0))
              || t.customId == s)) := by
        rw [hm]
        exact List.mem_cons_self _ _
      obtain ⟨hmem, hp⟩ := List.mem_filter.mp htf
      exact ⟨hmem, (hpred t).mp hp⟩
    · next hm =>
      exact absurd ht (by simp)
  refine ⟨hsound, ?_, ?_⟩
  · rintro ⟨t, htmem, hprop⟩
    have htf : t ∈ store.rows.filter (fun t =>
        t.category == category &&
          ((isValidNumericId s && ((t.id : Int) == (jsParseInt s).getD 0))
            || t.customId == s)) :=
      List.mem_filter.mpr ⟨htmem, (hpred t).mpr hprop⟩
    unfold get
    split
    · next t0 rest hm =>
      exact ⟨t0, rfl⟩
    · next hm =>
      rw [hm] at htf
      exact absurd htf (List.not_mem_nil t)
  · rintro ⟨t, ht⟩
    obtain ⟨hmem, hcat, hid⟩ := hsound t ht
    exact ⟨t, hmem, hcat, hid⟩

/-- Witness for C3 at a concrete store: on a store holding only the row
of id 2, the amended resolution rule finds a match for `"2"`. -/
theorem c3_witness :
    ∃ t, get ⟨[c3taskB], 3⟩ "c" "2" = .ok t := by
  refine (c3_amended_resolution ⟨[c3taskB], 3⟩ "c" "2" (by decide)).2.mp ?_
  exact ⟨c3taskB, by simp, by decide, Or.inl (by decide)⟩

/-! ### C1: empty-string comments -/

/-- **C1 counterexample.** On the upsert path an empty-string comment is
persisted verbatim: adding one item with `comment: ""` to an empty store
leaves a row whose `comment` column is the empty string, not NULL. -/
theorem c1_counterexample :
    (add 0 ⟨[], 1⟩ "c"
        (Json.arr [Json.obj [("customId", Json.str "x"),
                             ("comment", Json.str "")]])).1.rows.map
      Task.comment = [some ""] := by
  rfl

/-- **C1 (amended).** Empty-string comments normalize to absent only on
the status-change path: `setStatus` (done/wip) with an omitted or
empty-string comment leaves every row it touches with `comment` NULL.
On the upsert path the comment is never normalized: every touched row
carries the item's comment verbatim when the item supplies one
(including the empty string), and a conflicting upsert whose item omits
the comment keeps the old row's comment unchanged. -/
theorem c1_amended_comment_normalization :
    (∀ now store category id newStatus c store2,
        (c = none ∨ c = some "") →
        setStatus now store category id newStatus c = .ok store2 →
        ∀ t2 ∈ store2.rows, t2.comment = none ∨ t2 ∈ store.rows)
    ∧ (∀ now category store item,
        ∀ t2 ∈ (upsertOne now category store item).rows,
          t2 ∈ store.rows ∨ t2.comment = item.comment
            ∨ (item.comment = none ∧
                ∃ t ∈ store.rows, t2.comment = t.comment)) := by
  constructor
  · intro now store category id newStatus c store2 hc hok t2 ht2
    have hcnull : commentOrNull c = none := by
      rcases hc with rfl | rfl <;> rfl
    unfold setStatus at hok
    split at hok
    · exact absurd hok (by simp)
    · next taskId hv =>
      split at hok
      · cases hok
        obtain ⟨t, htmem, hft⟩ := List.mem_map.mp ht2
        by_cases hcond : (t.category == category && t.id == taskId) = true
        · rw [if_pos hcond] at hft
          left
          rw [← hft, hcnull]
        · rw [if_neg hcond] at hft
          right
          rw [← hft]
          exact htmem
      · exact absurd hok (by simp)
  · intro now category store item t2 ht2
    unfold upsertOne at ht2
    split at ht2
    · obtain ⟨t, htmem, hft⟩ := List.mem_map.mp ht2
      by_cases hcond : (t.customId == item.customId &&
          t.category == category) = true
      · rw [if_pos hcond] at hft
        rcases hic : item.comment with _ | c2
        · refine Or.inr (Or.inr ⟨rfl, t, htmem, ?_⟩)
          rw [← hft]
          show item.comment.or t.comment = t.comment
          rw [hic]
          rfl
        · refine Or.inr (Or.inl ?_)
          rw [← hft, hic]
          show (Option.some c2).or t.comment = some c2
          rfl
      · rw [if_neg hcond] at hft
        left
        rw [← hft]
        exact htmem
    · rcases List.mem_append.mp ht2 with h | h
      · exact Or.inl h
      · rw [List.mem_singleton.mp h]
        exact Or.inr (Or.inl rfl)

/-- Witness for C1 at concrete inputs: marking the sole row done with an
empty-string comment leaves its comment NULL; a conflicting upsert whose
item supplies the empty-string comment stores it verbatim; and a
conflicting upsert whose item omits the comment keeps the old comment. -/
theorem c1_witness :
    ((⟨1, "a", "c", none, none, .done, none, 0, 5⟩ : Task).comment = none
      ∨ (⟨1, "a", "c", none, none, .done, none, 0, 5⟩ : Task) ∈
          [(⟨1, "a", "c", none, none, .wip, some "old", 0, 0⟩ : Task)])
    ∧ ((⟨1, "a", "c", none, none, .wip, some "", 0, 5⟩ : Task) ∈
          [(⟨1, "a", "c", none, none, .wip, some "old", 0, 0⟩ : Task)]
      ∨ (⟨1, "a", "c", none, none, .wip, some "", 0, 5⟩ : Task).comment =
          some ""
      ∨ ((some "" : Option String) = none ∧
          ∃ t ∈ [(⟨1, "a", "c", none, none, .wip, some "old", 0, 0⟩ : Task)],
            (⟨1, "a", "c", none, none, .wip, some "", 0, 5⟩ : Task).comment =
              t.comment))
    ∧ ((⟨1, "a", "c", none, none, .wip, some "old", 0, 5⟩ : Task) ∈
          [(⟨1, "a", "c", none, none, .wip, some "old", 0, 0⟩ : Task)]
      ∨ (⟨1, "a", "c", none, none, .wip, some "old", 0, 5⟩ : Task).comment =
          (none : Option String)
      ∨ ((none : Option String) = none ∧
          ∃ t ∈ [(⟨1, "a", "c", none, none, .wip, some "old", 0, 0⟩ : Task)],
            (⟨1, "a", "c", none, none, .wip, some "old", 0, 5⟩ : Task).comment =
              t.comment)) := by
  refine ⟨?_, ?_, ?_⟩
  · exact c1_amended_comment_normalization.1 5
      ⟨[⟨1, "a", "c", none, none, .wip, some "old", 0, 0⟩], 2⟩ "c" "1" .done
      (some "")
      ⟨[⟨1, "a", "c", none, none, .done, none, 0, 5⟩], 2⟩
      (Or.inr rfl) rfl
      ⟨1, "a", "c", none, none, .done, none, 0, 5⟩ (by simp)
  · exact c1_amended_comment_normalization.2 5 "c"
      ⟨[⟨1, "a", "c", none, none, .wip, some "old", 0, 0⟩], 2⟩
      ⟨"a", none, none, some .wip, some ""⟩
      ⟨1, "a", "c", none, none, .wip, some "", 0, 5⟩ (by decide)
  · exact c1_amended_comment_normalization.2 5 "c"
      ⟨[⟨1, "a", "c", none, none, .wip, some "old", 0, 0⟩], 2⟩
      ⟨"a", none, none, some .wip, none⟩
      ⟨1, "a", "c", none, none, .wip, some "old", 0, 5⟩ (by decide)

/-! ### C10: validation precedes every write in `add` -/

lemma parseTaskList_error_of_mem {elems : List Json} {j : Json} {e : String}
    (hj : j ∈ elems) (he : parseTaskItem j = .error e) :
    ∃ e2, parseTaskList elems = .error e2 := by
  induction elems with
  | nil => cases hj
  | cons a l ih =>
    rcases List.mem_cons.mp hj with rfl | hmem
    · refine ⟨e, ?_⟩
      unfold parseTaskList
      rw [he]
    · unfold parseTaskList
      rcases ha : parseTaskItem a with ea | ita
      · exact ⟨ea, rfl⟩
      · obtain ⟨e2, h2⟩ := ih hmem
        rw [h2]
        exact ⟨e2, rfl⟩

/-- **C10.** `add` parses and validates the whole batch before the first
store write: whenever it reports a validation error the returned store is
exactly the input store, and a single invalid element anywhere in the
input array forces such an error. -/
theorem c10_validate_before_write :
    (∀ now store category input e,
        (add now store category input).2 = .error e →
        (add now store category input).1 = store)
    ∧ (∀ now store category elems j e, j ∈ elems →
        parseTaskItem j = .error e →
        ∃ e2, (add now store category (Json.arr elems)).2 = .error e2) := by
  constructor
  · intro now store category input e herr
    rcases hp : parseTasks input with e2 | tasks
    · have hadd : add now store category input = (store, .error e2) := by
        unfold add
        rw [hp]
      rw [hadd]
    · have hadd : add now store category input =
          (upsertBatch now category tasks store, .ok tasks.length) := by
        unfold add
        rw [hp]
      rw [hadd] at herr
      exact absurd herr (by simp)
  · intro now store category elems j e hj he
    obtain ⟨e2, h2⟩ := parseTaskList_error_of_mem hj he
    refine ⟨e2, ?_⟩
    have hp : parseTasks (Json.arr elems) = .error e2 := h2
    have hadd : add now store category (Json.arr elems) =
        (store, .error e2) := by
      unfold add
      rw [hp]
    rw [hadd]

/-- Witness for C10 at a concrete invalid batch (a numeric `customId`):
the store comes back unchanged and the call reports a validation
error. -/
theorem c10_witness :
    (add 0 ⟨[], 1⟩ "c" (Json.arr [Json.obj [("customId", Json.num 5)]])).1 =
        (⟨[], 1⟩ : Store)
    ∧ ∃ e2, (add 0 ⟨[], 1⟩ "c"
        (Json.arr [Json.obj [("customId", Json.num 5)]])).2 = .error e2 := by
  constructor
  · exact c10_validate_before_write.1 0 ⟨[], 1⟩ "c"
      (Json.arr [Json.obj [("customId", Json.num 5)]])
      "invalid_type: customId must be a string" rfl
  · exact c10_validate_before_write.2 0 ⟨[], 1⟩ "c"
      [Json.obj [("customId", Json.num 5)]]
      (Json.obj [("customId", Json.num 5)])
      "invalid_type: customId must be a string" (by simp) rfl

/-! ### C2: every mutation refreshes `updatedAt` -/

lemma forall2_map_self {α : Type} (R : α → α → Prop) (f : α → α)
    (l : List α) (h : ∀ x ∈ l, R x (f x)) :
    List.Forall₂ R l (l.map f) := by
  induction l with
  | nil => simp
  | cons a l ih =>
    rw [List.map_cons]
    exact List.Forall₂.cons (h a (List.mem_cons_self a l))
      (ih fun x hx => h x (List.mem_cons_of_mem a hx))

/-- **C2.** Under a monotone clock (`now` at least every stored
`updatedAt`), both mutation paths leave each row's `updatedAt` at least
as new as before: a status change via `setStatus` (done/wip), and an
upsert of an item whose `(customId, category)` key already exists. -/
theorem c2_updated_at_refresh :
    (∀ now store category id newStatus comment store2,
        (∀ t ∈ store.rows, t.updatedAt ≤ now) →
        setStatus now store category id newStatus comment = .ok store2 →
        List.Forall₂ (fun t t2 => t.updatedAt ≤ t2.updatedAt)
          store.rows store2.rows)
    ∧ (∀ now category store item,
        (∀ t ∈ store.rows, t.updatedAt ≤ now) →
        store.rows.any (fun t => t.customId == item.customId &&
          t.category == category) = true →
        List.Forall₂ (fun t t2 => t.updatedAt ≤ t2.updatedAt)
          store.rows (upsertOne now category store item).rows) := by
  constructor
  · intro now store category id newStatus comment store2 hmono hok
    unfold setStatus at hok
    split at hok
    · exact absurd hok (by simp)
    · next taskId hv =>
      split at hok
      · cases hok
        refine forall2_map_self _ _ _ ?_
        intro t ht
        by_cases hcond : (t.category == category && t.id == taskId) = true
        · rw [if_pos hcond]
          exact hmono t ht
        · rw [if_neg hcond]
      · exact absurd hok (by simp)
  · intro now category store item hmono hex
    unfold upsertOne
    rw [if_pos hex]
    refine forall2_map_self _ _ _ ?_
    intro t ht
    by_cases hcond : (t.customId == item.customId &&
        t.category == category) = true
    · rw [if_pos hcond]
      exact hmono t ht
    · rw [if_neg hcond]

/-- Witness for C2 at a concrete store and time: both the status-change
path and the conflicting-upsert path relate the old and new rows by
non-decreasing `updatedAt`. -/
theorem c2_witness :
    List.Forall₂ (fun t t2 => t.updatedAt ≤ t2.updatedAt)
        [(⟨1, "a", "c", none, none, .wip, none, 3, 3⟩ : Task)]
        [(⟨1, "a", "c", none, none, .done, none, 3, 7⟩ : Task)]
    ∧ List.Forall₂ (fun t t2 => t.updatedAt ≤ t2.updatedAt)
        [(⟨1, "a", "c", none, none, .wip, none, 3, 3⟩ : Task)]
        (upsertOne 7 "c" ⟨[⟨1, "a", "c", none, none, .wip, none, 3, 3⟩], 2⟩
          ⟨"a", some "N", none, none, none⟩).rows := by
  constructor
  · exact c2_updated_at_refresh.1 7
      ⟨[⟨1, "a", "c", none, none, .wip, none, 3, 3⟩], 2⟩ "c" "1" .done none
      ⟨[⟨1, "a", "c", none, none, .done, none, 3, 7⟩], 2⟩
      (by decide) rfl
  · exact c2_updated_at_refresh.2 7 "c"
      ⟨[⟨1, "a", "c", none, none, .wip, none, 3, 3⟩], 2⟩
      ⟨"a", some "N", none, none, none⟩ (by decide) (by decide)

/-! ### C9: the truncation width bound -/

lemma stringWidth_eq_sum (s : String) :
    stringWidth s = (s.data.map charWidth).sum := by
  unfold stringWidth
  split
  · next h =>
    rw [eq_of_beq h]
    rfl
  · rfl

lemma stringWidth_mk (l : List Char) :
    stringWidth ⟨l⟩ = (l.map charWidth).sum :=
  stringWidth_eq_sum ⟨l⟩

lemma string_data_append (a b : String) : (a ++ b).data = a.data ++ b.data := by
  rcases a with ⟨la⟩
  rcases b with ⟨lb⟩
  rfl

lemma takeWidth_sum (target : Nat) :
    ∀ (cs : List Char) (current : Nat), current ≤ target →
      current + ((takeWidth target cs current).map charWidth).sum ≤ target := by
  intro cs
  induction cs with
  | nil =>
    intro current h
    simpa [takeWidth] using h
  | cons c cs ih =>
    intro current h
    unfold takeWidth
    dsimp only
    split
    · simpa using h
    · next h2 =>
      rw [Nat.not_lt] at h2
      have := ih (current + charWidth c) h2
      simp only [List.map_cons, List.sum_cons]
      omega

lemma take_sum_le {l : List Char} (h : ∀ c ∈ l, charWidth c ≤ 1) (n : Nat) :
    ((l.take n).map charWidth).sum ≤ n := by
  induction l generalizing n with
  | nil => simp
  | cons c cs ih =>
    cases n with
    | zero => simp
    | succ m =>
      rw [List.take_succ_cons, List.map_cons, List.sum_cons]
      have h1 : charWidth c ≤ 1 := h c (List.mem_cons_self c cs)
      have h2 := ih (fun x hx => h x (List.mem_cons_of_mem c hx)) m
      omega

/-- **C9 counterexample.** With an ellipsis made of wide characters the
degenerate branch cuts the ellipsis by raw character count, so the
result can exceed `maxWidth`: truncating `"aaaa"` to width 2 with
ellipsis `"日本語"` yields a string of visual width 4. -/
theorem c9_counterexample :
    ¬ stringWidth (truncateString "aaaa" 2 "日本語") ≤ 2 := by
  decide

/-- **C9 (amended).** Whenever every code point of the ellipsis has
visual width at most 1 — true of the default `"..."` — `truncateString`
never returns a string wider than `maxWidth`, including the degenerate
case `maxWidth ≤ Width(ellipsis)`; with a wide-character ellipsis the
degenerate branch can exceed the bound. -/
theorem c9_amended_truncate_bound (s : String) (maxWidth : Nat)
    (ellipsis : String) (hell : ∀ c ∈ ellipsis.data, charWidth c ≤ 1) :
    stringWidth (truncateString s maxWidth ellipsis) ≤ maxWidth := by
  unfold truncateString
  split
  · simp [stringWidth]
  · next h0 =>
    dsimp only
    split
    · next hfit =>
      exact hfit
    · next hbig =>
      rw [Nat.not_le] at hbig
      split
      · next hdeg =>
        rw [stringWidth_mk]
        exact take_sum_le hell maxWidth
      · next hdeg =>
        rw [Nat.not_le] at hdeg
        rw [stringWidth_eq_sum, string_data_append, List.map_append,
          List.sum_append]
        have h1 := takeWidth_sum (maxWidth - stringWidth ellipsis)
          s.data 0 (Nat.zero_le _)
        rw [Nat.zero_add] at h1
        have h2 : ((⟨takeWidth (maxWidth - stringWidth ellipsis) s.data 0⟩ :
            String).data.map charWidth).sum ≤
            maxWidth - stringWidth ellipsis := h1
        rw [← stringWidth_eq_sum ellipsis]
        omega

/-- Witness for C9 at concrete inputs: the default three-dot ellipsis
satisfies the width-1 hypothesis and the truncated string stays within
the bound. -/
theorem c9_witness :
    stringWidth (truncateString "abcdef" 4 "...") ≤ 4 :=
  c9_amended_truncate_bound "abcdef" 4 "..." (by decide)

/-! ### C5: upsert uniqueness and last-write-wins -/

lemma keys_nodup_map {l : List Task} {f : Task → Task}
    (hf : ∀ t, taskKey (f t) = taskKey t)
    (h : (l.map taskKey).Nodup) : ((l.map f).map taskKey).Nodup := by
  rw [List.map_map]
  have heq : l.map (taskKey ∘ f) = l.map taskKey :=
    List.map_congr_left fun t _ => hf t
  rw [heq]
  exact h

lemma taskKey_eq_of_match {t : Task} {cid cat : String}
    (hc : (t.customId == cid && t.category == cat) = true) :
    taskKey t = (cid, cat) := by
  rw [Bool.and_eq_true, beq_iff_eq, beq_iff_eq] at hc
  unfold taskKey
  rw [hc.1, hc.2]

lemma filter_key_singleton {l : List Task} {cid cat : String} {t0 : Task}
    (hnd : (l.map taskKey).Nodup) (ht0 : t0 ∈ l)
    (hkey : t0.customId = cid ∧ t0.category = cat) :
    l.filter (fun t => t.customId == cid && t.category == cat) = [t0] := by
  induction l with
  | nil => cases ht0
  | cons a l ih =>
    rw [List.map_cons, List.nodup_cons] at hnd
    rcases List.mem_cons.mp ht0 with rfl | hmem
    · rw [List.filter_cons_of_pos
        (p := fun t : Task => t.customId == cid && t.category == cat)
        (by simp [hkey.1, hkey.2])]
      have hnone : ∀ t ∈ l, ¬(t.customId == cid && t.category == cat) = true := by
        intro t ht hc
        apply hnd.1
        have hk : taskKey t = taskKey t0 := by
          rw [taskKey_eq_of_match hc]
          unfold taskKey
          rw [hkey.1, hkey.2]
        rw [← hk]
        exact List.mem_map_of_mem taskKey ht
      rw [List.filter_eq_nil_iff.mpr hnone]
    · have hne : ¬(a.customId == cid && a.category == cat) = true := by
        intro hc
        apply hnd.1
        have hk : taskKey a = taskKey t0 := by
          rw [taskKey_eq_of_match hc]
          unfold taskKey
          rw [hkey.1, hkey.2]
        rw [hk]
        exact List.mem_map_of_mem taskKey hmem
      rw [List.filter_cons_of_neg
        (p := fun t : Task => t.customId == cid && t.category == cat) hne]
      exact ih hnd.2 hmem

lemma upsertOne_keysNodup (now : Nat) (category : String) (store : Store)
    (item : TaskItem) (h : keysNodup store) :
    keysNodup (upsertOne now category store item) := by
  unfold keysNodup at h ⊢
  unfold upsertOne
  split
  · next hany =>
    exact keys_nodup_map (fun t => by split <;> rfl) h
  · next hany =>
    rw [Bool.not_eq_true, List.any_eq_false] at hany
    dsimp only
    rw [List.map_append, List.map_singleton]
    rw [List.nodup_append]
    refine ⟨h, List.nodup_singleton _, ?_⟩
    intro k hk1 hk2
    rw [List.mem_singleton] at hk2
    obtain ⟨t, ht, hkt⟩ := List.mem_map.mp hk1
    subst hk2
    have : (t.customId == item.customId && t.category == category) = true := by
      unfold taskKey at hkt
      have h1 := congrArg Prod.fst hkt
      have h2 := congrArg Prod.snd hkt
      dsimp at h1 h2
      rw [Bool.and_eq_true, beq_iff_eq, beq_iff_eq]
      exact ⟨h1, h2⟩
    exact hany t ht this

lemma upsertOne_filter_key (now : Nat) (category : String) (store : Store)
    (item : TaskItem) (h : keysNodup store) :
    ∃ t, (upsertOne now category store item).rows.filter
        (fun t => t.customId == item.customId && t.category == category) = [t]
      ∧ (∀ v, item.name = some v → t.name = some v)
      ∧ (∀ v, item.description = some v → t.description = some v)
      ∧ t.status = item.status.getD .wip
      ∧ (∀ v, item.comment = some v → t.comment = some v) := by
  unfold keysNodup at h
  unfold upsertOne
  split
  · next hany =>
    rw [List.any_eq_true] at hany
    obtain ⟨t0, ht0, hmatch⟩ := hany
    dsimp only
    rw [List.filter_map]
    have hpf : ∀ t ∈ store.rows,
        ((fun t => t.customId == item.customId && t.category == category) ∘
          (fun t =>
            if t.customId == item.customId && t.category == category then
              { t with name := item.name.or t.name,
                       description := item.description.or t.description,
                       status := item.status.getD .wip,
                       comment := item.comment.or t.comment,
                       updatedAt := now }
            else t)) t =
        (t.customId == item.customId && t.category == category) := by
      intro t _
      dsimp only [Function.comp_apply]
      split
      · next hc => simp_all
      · rfl
    rw [List.filter_congr hpf]
    rw [Bool.and_eq_true, beq_iff_eq, beq_iff_eq] at hmatch
    rw [filter_key_singleton h ht0 hmatch]
    rw [List.map_singleton]
    refine ⟨_, rfl, ?_, ?_, ?_, ?_⟩
    · intro v hv
      simp [hmatch.1, hmatch.2, hv, Option.or]
    · intro v hv
      simp [hmatch.1, hmatch.2, hv, Option.or]
    · simp [hmatch.1, hmatch.2]
    · intro v hv
      simp [hmatch.1, hmatch.2, hv, Option.or]
  · next hany =>
    rw [Bool.not_eq_true, List.any_eq_false] at hany
    dsimp only
    rw [List.filter_append]
    rw [List.filter_eq_nil_iff.mpr hany]
    rw [List.nil_append]
    rw [List.filter_cons_of_pos
      (p := fun t : Task => t.customId == item.customId && t.category == category)
      (by simp)]
    exact ⟨_, rfl, fun v hv => hv, fun v hv => hv, rfl, fun v hv => hv⟩

lemma upsertBatch_keysNodup (now : Nat) (category : String) :
    ∀ (items : List TaskItem) (store : Store), keysNodup store →
      keysNodup (upsertBatch now category items store) := by
  intro items
  induction items with
  | nil => intro store h; exact h
  | cons item items ih =>
    intro store h
    exact ih (upsertOne now category store item)
      (upsertOne_keysNodup now category store item h)

/-- **C5.** Starting from any store satisfying the unique-index
invariant, `upsertBatch` preserves it (at most one row per
`(customId, category)` pair), and a batch repeating `customId` `"x"`
with names `"A"` then `"B"` leaves exactly one `("x", category)` row,
carrying the last item's name `"B"`. -/
theorem c5_upsert_last_write_wins (now : Nat) (category : String)
    (store : Store) (items : List TaskItem) (h : keysNodup store) :
    keysNodup (upsertBatch now category items store)
    ∧ ∃ t, (upsertBatch now category
          [⟨"x", some "A", none, none, none⟩,
           ⟨"x", some "B", none, none, none⟩] store).rows.filter
        (fun t => t.customId == "x" && t.category == category) = [t]
      ∧ t.name = some "B" := by
  constructor
  · exact upsertBatch_keysNodup now category items store h
  · have h1 : keysNodup
        (upsertOne now category store ⟨"x", some "A", none, none, none⟩) :=
      upsertOne_keysNodup now category store _ h
    obtain ⟨t, hf, hn, -, -, -⟩ := upsertOne_filter_key now category
      (upsertOne now category store ⟨"x", some "A", none, none, none⟩)
      ⟨"x", some "B", none, none, none⟩ h1
    exact ⟨t, hf, hn "B" rfl⟩

/-- Witness for C5 on the empty store: the invariant holds afterwards
and the duplicate-key batch leaves one `("x", "c")` row named `"B"`. -/
theorem c5_witness :
    keysNodup (upsertBatch 0 "c" [] ⟨[], 1⟩)
    ∧ ∃ t, (upsertBatch 0 "c"
          [⟨"x", some "A", none, none, none⟩,
           ⟨"x", some "B", none, none, none⟩] ⟨[], 1⟩).rows.filter
        (fun t => t.customId == "x" && t.category == "c") = [t]
      ∧ t.name = some "B" :=
  c5_upsert_last_write_wins 0 "c" ⟨[], 1⟩ [] (by simp [keysNodup])

/-! ### C6: search escaping -/

lemma likeEq_pct (c : Char) : likeEq '%' c = (c == '%') := by
  unfold likeEq
  have h1 : ('%').isUpper = false := by decide
  rw [h1]
  simp only [Bool.false_and, Bool.or_false, Bool.false_or]
  by_cases h2 : (('%').toNat == c.toNat + 32) = true
  · have h3 : c.toNat = 5 := by
      have h4 : ('%').toNat = c.toNat + 32 := eq_of_beq h2
      have h5 : ('%').toNat = 37 := by decide
      omega
    have hc : c = Char.ofNat 5 := by
      rw [← Char.ofNat_toNat c, h3]
    subst hc
    decide
  · rw [Bool.not_eq_true] at h2
    rw [h2]
    simp only [Bool.and_false, Bool.or_false]
    by_cases h3 : c = '%'
    · subst h3
      rfl
    · rw [beq_eq_false_iff_ne.mpr h3,
        beq_eq_false_iff_ne.mpr (Ne.symm h3)]

lemma likeMatch_any : ∀ s : List Char, likeMatch ['%'] s = true := by
  intro s
  induction s with
  | nil => simp [likeMatch]
  | cons c s ih =>
    rw [likeMatch]
    rw [ih]
    simp

lemma likeMatch_pct_step (c : Char) (s : List Char) :
    likeMatch ['%', '\\', '%', '%'] (c :: s) =
      ((c == '%') || likeMatch ['%', '\\', '%', '%'] s) := by
  conv_lhs => rw [likeMatch]
  conv_lhs => rw [likeMatch]
  rw [likeEq_pct c, likeMatch_any s]
  simp

lemma likeMatch_pct (s : List Char) :
    likeMatch ['%', '\\', '%', '%'] s = true ↔ '%' ∈ s := by
  induction s with
  | nil =>
    rw [likeMatch]
    rw [likeMatch]
    simp
  | cons c s ih =>
    rw [likeMatch_pct_step]
    rw [List.mem_cons]
    simp only [Bool.or_eq_true, beq_iff_eq, ih]
    constructor
    · rintro (rfl | h)
      · exact Or.inl rfl
      · exact Or.inr h
    · rintro (rfl | h)
      · exact Or.inl rfl
      · exact Or.inr h

/-- **C6.** Searching for the literal `"%"` returns exactly the rows of
the category with a literal percent character in `customId`, `name` or
`description` — the escaping keeps the user's `%` from acting as a
wildcard, so rows without a literal percent are never returned. -/
theorem c6_search_escaping (store : Store) (category : String) (t : Task) :
    t ∈ search store category "%" ↔
      (t ∈ store.rows ∧ t.category = category ∧
        ('%' ∈ t.customId.data ∨
          (∃ n, t.name = some n ∧ '%' ∈ n.data) ∨
          (∃ d, t.description = some d ∧ '%' ∈ d.data))) := by
  have hpat : '%' :: (escapeLike "%").data ++ ['%'] = ['%', '\\', '%', '%'] := by
    rfl
  have hopt : ∀ (o : Option String),
      ((match o with
        | some n => likeMatch ['%', '\\', '%', '%'] n.data
        | none => false) = true) ↔
      ∃ n, o = some n ∧ '%' ∈ n.data := by
    intro o
    cases o with
    | none => simp
    | some n => simp [likeMatch_pct n.data]
  unfold search
  rw [hpat, List.mem_filter]
  simp only [Bool.and_eq_true, Bool.or_eq_true, beq_iff_eq]
  rw [likeMatch_pct t.customId.data, hopt t.name, hopt t.description,
    or_assoc]

/-! ### C8: the status summary -/

lemma applyGroup_category (r : SummaryRow) (st : Status) (n : Nat) :
    (applyGroup r st n).category = r.category := by
  cases st <;> rfl

lemma find?_category_map {f : SummaryRow → SummaryRow}
    (hf : ∀ r, (f r).category = r.category) (c : String) :
    ∀ l : List SummaryRow,
      (l.map f).find? (fun r => r.category == c) =
        ((l.find? (fun r => r.category == c)).map f) := by
  intro l
  induction l with
  | nil => rfl
  | cons a l ih =>
    rw [List.map_cons]
    by_cases hc : (a.category == c) = true
    · rw [List.find?_cons_of_pos (p := fun r : SummaryRow => r.category == c)
        (a := f a) (l.map f) (by dsimp only; rw [hf a]; exact hc),
        List.find?_cons_of_pos (p := fun r : SummaryRow => r.category == c)
        (a := a) l hc]
      rfl
    · rw [List.find?_cons_of_neg (p := fun r : SummaryRow => r.category == c)
        (a := f a) (l.map f) (by dsimp only; rw [hf a]; exact hc),
        List.find?_cons_of_neg (p := fun r : SummaryRow => r.category == c)
        (a := a) l hc]
      exact ih

lemma entryFor_insertGroup (acc : List SummaryRow)
    (g : String × Status × Nat) (c : String) :
    entryFor c (insertGroup acc g) =
      if g.1 = c then
        some (applyGroup ((entryFor c acc).getD ⟨c, 0, 0⟩) g.2.1 g.2.2)
      else entryFor c acc := by
  have hfcat : ∀ r : SummaryRow,
      ((fun r : SummaryRow =>
        if r.category == g.1 then applyGroup r g.2.1 g.2.2 else r) r).category =
        r.category := by
    intro r
    by_cases h : (r.category == g.1) = true
    · dsimp only
      rw [if_pos h, applyGroup_category]
    · dsimp only
      rw [if_neg h]
  unfold insertGroup entryFor
  by_cases hany : (acc.any fun r => r.category == g.1) = true
  · rw [if_pos hany]
    rw [find?_category_map hfcat c acc]
    rcases hf : acc.find? (fun r => r.category == c) with _ | r
    · rw [hf]
      by_cases hg : g.1 = c
      · subst hg
        obtain ⟨r0, hr0, hp0⟩ := List.any_eq_true.mp hany
        rw [List.find?_eq_none] at hf
        exact absurd hp0 (hf r0 hr0)
      · rw [if_neg hg]
        rfl
    · rw [hf]
      have hrc : r.category = c := by
        have hp := List.find?_some hf
        simp only [beq_iff_eq] at hp
        exact hp
      have hstep : Option.map (fun r : SummaryRow =>
          if r.category == g.1 then applyGroup r g.2.1 g.2.2 else r)
          (some r) =
          some (if r.category == g.1 then applyGroup r g.2.1 g.2.2 else r) :=
        rfl
      rw [hstep]
      by_cases hg : g.1 = c
      · rw [if_pos hg, Option.getD_some,
          if_pos (by rw [hrc, hg]; exact beq_self_eq_true c)]
      · rw [if_neg hg,
          if_neg (by
            rw [hrc]
            intro hb
            exact hg (beq_iff_eq.mp hb).symm)]
  · rw [if_neg hany]
    rw [Bool.not_eq_true, List.any_eq_false] at hany
    have hfacc : acc.find? (fun r => r.category == g.1) = none :=
      List.find?_eq_none.mpr hany
    rw [List.find?_append]
    by_cases hg : g.1 = c
    · subst hg
      rw [hfacc]
      rw [List.find?_cons_of_pos
        (p := fun r : SummaryRow => r.category == g.1)
        (a := applyGroup ⟨g.1, 0, 0⟩ g.2.1 g.2.2) [] (by
          dsimp only
          rw [applyGroup_category]
          exact beq_self_eq_true g.1)]
      rw [if_pos rfl]
      rfl
    · have hnone2 : List.find? (fun r => r.category == c)
          [applyGroup ⟨g.1, 0, 0⟩ g.2.1 g.2.2] = none := by
        rw [List.find?_cons_of_neg
          (p := fun r : SummaryRow => r.category == c)
          (a := applyGroup ⟨g.1, 0, 0⟩ g.2.1 g.2.2) [] (by
            dsimp only
            rw [applyGroup_category]
            intro hb
            exact hg (beq_iff_eq.mp hb))]
        rfl
      rw [hnone2, if_neg hg, Option.or_none]

lemma foldGroupsFor_cons (c : String) (g : String × Status × Nat)
    (gs : List (String × Status × Nat)) (r : SummaryRow) :
    foldGroupsFor c (g :: gs) r =
      foldGroupsFor c gs (if g.1 = c then applyGroup r g.2.1 g.2.2 else r) :=
  rfl

lemma entryFor_foldl_some (c : String) :
    ∀ (gs : List (String × Status × Nat)) (acc : List SummaryRow)
      (r : SummaryRow),
      entryFor c acc = some r →
      entryFor c (gs.foldl insertGroup acc) =
        some (foldGroupsFor c gs r) := by
  intro gs
  induction gs with
  | nil =>
    intro acc r h
    exact h
  | cons g gs ih =>
    intro acc r h
    rw [List.foldl_cons, foldGroupsFor_cons]
    by_cases hg : g.1 = c
    · have h2 : entryFor c (insertGroup acc g) =
          some (applyGroup r g.2.1 g.2.2) := by
        rw [entryFor_insertGroup, if_pos hg, h, Option.getD_some]
      rw [if_pos hg]
      exact ih (insertGroup acc g) (applyGroup r g.2.1 g.2.2) h2
    · have h2 : entryFor c (insertGroup acc g) = some r := by
        rw [entryFor_insertGroup, if_neg hg, h]
      rw [if_neg hg]
      exact ih (insertGroup acc g) r h2

lemma entryFor_foldl_none (c : String) :
    ∀ (gs : List (String × Status × Nat)) (acc : List SummaryRow),
      entryFor c acc = none →
      entryFor c (gs.foldl insertGroup acc) =
        if gs.any (fun g => g.1 == c) then
          some (foldGroupsFor c gs ⟨c, 0, 0⟩)
        else none := by
  intro gs
  induction gs with
  | nil =>
    intro acc h
    exact h
  | cons g gs ih =>
    intro acc h
    rw [List.foldl_cons, List.any_cons]
    by_cases hg : g.1 = c
    · have h2 : entryFor c (insertGroup acc g) =
          some (applyGroup ⟨c, 0, 0⟩ g.2.1 g.2.2) := by
        rw [entryFor_insertGroup, if_pos hg, h]
        rfl
      rw [entryFor_foldl_some c gs (insertGroup acc g) _ h2]
      rw [if_pos (by rw [Bool.or_eq_true]; exact Or.inl (by simp [hg]))]
      rw [foldGroupsFor_cons, if_pos hg]
    · have h2 : entryFor c (insertGroup acc g) = none := by
        rw [entryFor_insertGroup, if_neg hg, h]
      rw [ih (insertGroup acc g) h2]
      have hgb : (g.1 == c) = false := by simp [hg]
      rw [hgb, Bool.false_or, foldGroupsFor_cons, if_neg hg]

lemma foldGroupsFor_category (c : String) :
    ∀ (gs : List (String × Status × Nat)) (r : SummaryRow),
      (foldGroupsFor c gs r).category = r.category := by
  intro gs
  induction gs with
  | nil => intro r; rfl
  | cons g gs ih =>
    intro r
    rw [foldGroupsFor_cons]
    rw [ih]
    split
    · rw [applyGroup_category]
    · rfl

lemma foldGroupsFor_wip_absent (c : String) :
    ∀ (gs : List (String × Status × Nat)) (r : SummaryRow),
      (∀ n, (c, Status.wip, n) ∉ gs) →
      (foldGroupsFor c gs r).wipCount = r.wipCount := by
  intro gs
  induction gs with
  | nil => intro r _; rfl
  | cons g gs ih =>
    intro r habs
    rcases g with ⟨gc, gst, gn⟩
    rw [foldGroupsFor_cons]
    have htail : ∀ n, (c, Status.wip, n) ∉ gs := by
      intro n hn
      exact habs n (List.mem_cons_of_mem _ hn)
    rw [ih _ htail]
    by_cases hg : gc = c
    · subst hg
      cases gst with
      | wip => exact absurd (List.mem_cons_self _ _) (habs gn)
      | done => rw [if_pos rfl]; rfl
    · rw [if_neg hg]

lemma foldGroupsFor_done_absent (c : String) :
    ∀ (gs : List (String × Status × Nat)) (r : SummaryRow),
      (∀ n, (c, Status.done, n) ∉ gs) →
      (foldGroupsFor c gs r).doneCount = r.doneCount := by
  intro gs
  induction gs with
  | nil => intro r _; rfl
  | cons g gs ih =>
    intro r habs
    rcases g with ⟨gc, gst, gn⟩
    rw [foldGroupsFor_cons]
    have htail : ∀ n, (c, Status.done, n) ∉ gs := by
      intro n hn
      exact habs n (List.mem_cons_of_mem _ hn)
    rw [ih _ htail]
    by_cases hg : gc = c
    · subst hg
      cases gst with
      | done => exact absurd (List.mem_cons_self _ _) (habs gn)
      | wip => rw [if_pos rfl]; rfl
    · rw [if_neg hg]

lemma foldGroupsFor_wip_mem (c : String) :
    ∀ (gs : List (String × Status × Nat)) (r : SummaryRow) (n : Nat),
      (gs.map (fun g => (g.1, g.2.1))).Nodup →
      (c, Status.wip, n) ∈ gs →
      (foldGroupsFor c gs r).wipCount = n := by
  intro gs
  induction gs with
  | nil =>
    intro r n _ hmem
    cases hmem
  | cons g gs ih =>
    intro r n hnd hmem
    rcases g with ⟨gc, gst, gn⟩
    rw [List.map_cons, List.nodup_cons] at hnd
    rw [foldGroupsFor_cons]
    rcases List.mem_cons.mp hmem with heq | hmem2
    · injection heq with h1 h23
      injection h23 with h2 h3
      subst h1
      subst h2
      subst h3
      rw [if_pos rfl]
      refine (foldGroupsFor_wip_absent c gs _ ?_).trans rfl
      intro m hm
      exact hnd.1 (by
        have : ((c, Status.wip, m).1, (c, Status.wip, m).2.1) ∈
            gs.map (fun g => (g.1, g.2.1)) := List.mem_map_of_mem _ hm
        exact this)
    · exact ih _ n hnd.2 hmem2

lemma foldGroupsFor_done_mem (c : String) :
    ∀ (gs : List (String × Status × Nat)) (r : SummaryRow) (n : Nat),
      (gs.map (fun g => (g.1, g.2.1))).Nodup →
      (c, Status.done, n) ∈ gs →
      (foldGroupsFor c gs r).doneCount = n := by
  intro gs
  induction gs with
  | nil =>
    intro r n _ hmem
    cases hmem
  | cons g gs ih =>
    intro r n hnd hmem
    rcases g with ⟨gc, gst, gn⟩
    rw [List.map_cons, List.nodup_cons] at hnd
    rw [foldGroupsFor_cons]
    rcases List.mem_cons.mp hmem with heq | hmem2
    · injection heq with h1 h23
      injection h23 with h2 h3
      subst h1
      subst h2
      subst h3
      rw [if_pos rfl]
      refine (foldGroupsFor_done_absent c gs _ ?_).trans rfl
      intro m hm
      exact hnd.1 (by
        have : ((c, Status.done, m).1, (c, Status.done, m).2.1) ∈
            gs.map (fun g => (g.1, g.2.1)) := List.mem_map_of_mem _ hm
        exact this)
    · exact ih _ n hnd.2 hmem2

lemma groupBy_keys (rows : List Task) :
    (groupByCategoryStatus rows).map (fun g => (g.1, g.2.1)) =
      (rows.map (fun t => (t.category, t.status))).dedup := by
  unfold groupByCategoryStatus
  rw [List.map_map]
  have hcomp : ((fun g : String × Status × Nat => (g.1, g.2.1)) ∘
      (fun p : String × Status => (p.1, p.2,
        rows.countP (fun t => t.category == p.1 && t.status == p.2)))) =
      fun p => p := by
    funext p
    rfl
  rw [hcomp, List.map_id']

lemma mem_groupBy {rows : List Task} {c : String} {st : Status} {n : Nat} :
    (c, st, n) ∈ groupByCategoryStatus rows ↔
      ((c, st) ∈ (rows.map (fun t => (t.category, t.status))).dedup ∧
        n = rows.countP (fun t => t.category == c && t.status == st)) := by
  unfold groupByCategoryStatus
  rw [List.mem_map]
  constructor
  · rintro ⟨⟨pc, pst⟩, hp, heq⟩
    injection heq with h1 h23
    injection h23 with h2 h3
    subst h1
    subst h2
    subst h3
    exact ⟨hp, rfl⟩
  · rintro ⟨hp, rfl⟩
    exact ⟨(c, st), hp, rfl⟩

lemma pair_mem_dedup {rows : List Task} {c : String} {st : Status} :
    (c, st) ∈ (rows.map (fun t => (t.category, t.status))).dedup ↔
      ∃ t ∈ rows, t.category = c ∧ t.status = st := by
  rw [List.mem_dedup, List.mem_map]
  constructor
  · rintro ⟨t, ht, heq⟩
    injection heq with h1 h2
    exact ⟨t, ht, h1, h2⟩
  · rintro ⟨t, ht, h1, h2⟩
    exact ⟨t, ht, by rw [h1, h2]⟩

/-- **C8.** `status` reports, for every category present in the store,
both its wip count and its done count — a count of zero is reported as
zero rather than the category or the number being omitted — and on an
empty store the summary is empty and the output is exactly the single
nothing-found line. -/
theorem c8_status_summary (store : Store) :
    (store.rows = [] →
      statusSummary store = [] ∧
        statusOutput store = ["No tasks found in any category"])
    ∧ (∀ c, (∃ t ∈ store.rows, t.category = c) →
        ∃ r ∈ statusSummary store, r.category = c ∧
          r.wipCount = store.rows.countP
            (fun t => t.category == c && t.status == Status.wip) ∧
          r.doneCount = store.rows.countP
            (fun t => t.category == c && t.status == Status.done)) := by
  constructor
  · intro h
    have hsum : statusSummary store = [] := by
      unfold statusSummary groupByCategoryStatus
      rw [h]
      rfl
    refine ⟨hsum, ?_⟩
    unfold statusOutput
    rw [hsum]
  · rintro c ⟨t0, ht0, hcat⟩
    have hknd : ((groupByCategoryStatus store.rows).map
        (fun g => (g.1, g.2.1))).Nodup := by
      rw [groupBy_keys]
      exact List.nodup_dedup _
    have hpair0 : (c, t0.status) ∈
        (store.rows.map (fun t => (t.category, t.status))).dedup :=
      pair_mem_dedup.mpr ⟨t0, ht0, hcat, rfl⟩
    have hg0 : (c, t0.status, store.rows.countP
        (fun t => t.category == c && t.status == t0.status)) ∈
        groupByCategoryStatus store.rows :=
      mem_groupBy.mpr ⟨hpair0, rfl⟩
    have hany : (groupByCategoryStatus store.rows).any
        (fun g => g.1 == c) = true :=
      List.any_eq_true.mpr ⟨_, hg0, beq_self_eq_true c⟩
    have hentry : entryFor c (statusSummary store) =
        some (foldGroupsFor c (groupByCategoryStatus store.rows)
          ⟨c, 0, 0⟩) := by
      unfold statusSummary
      rw [entryFor_foldl_none c _ [] rfl, if_pos hany]
    refine ⟨foldGroupsFor c (groupByCategoryStatus store.rows) ⟨c, 0, 0⟩,
      List.mem_of_find?_eq_some hentry, ?_, ?_, ?_⟩
    · rw [foldGroupsFor_category]
    · by_cases hw : ∃ t ∈ store.rows, t.category = c ∧
          t.status = Status.wip
      · exact foldGroupsFor_wip_mem c _ _ _ hknd
          (mem_groupBy.mpr ⟨pair_mem_dedup.mpr hw, rfl⟩)
      · have habs : ∀ n, (c, Status.wip, n) ∉
            groupByCategoryStatus store.rows := by
          intro n hn
          obtain ⟨hp, -⟩ := mem_groupBy.mp hn
          exact hw (pair_mem_dedup.mp hp)
        rw [foldGroupsFor_wip_absent c _ _ habs]
        have hz : store.rows.countP
            (fun t => t.category == c && t.status == Status.wip) = 0 := by
          rw [List.countP_eq_zero]
          intro t ht hp
          rw [Bool.and_eq_true, beq_iff_eq, beq_iff_eq] at hp
          exact hw ⟨t, ht, hp.1, hp.2⟩
        rw [hz]
    · by_cases hw : ∃ t ∈ store.rows, t.category = c ∧
          t.status = Status.done
      · exact foldGroupsFor_done_mem c _ _ _ hknd
          (mem_groupBy.mpr ⟨pair_mem_dedup.mpr hw, rfl⟩)
      · have habs : ∀ n, (c, Status.done, n) ∉
            groupByCategoryStatus store.rows := by
          intro n hn
          obtain ⟨hp, -⟩ := mem_groupBy.mp hn
          exact hw (pair_mem_dedup.mp hp)
        rw [foldGroupsFor_done_absent c _ _ habs]
        have hz : store.rows.countP
            (fun t => t.category == c && t.status == Status.done) = 0 := by
          rw [List.countP_eq_zero]
          intro t ht hp
          rw [Bool.and_eq_true, beq_iff_eq, beq_iff_eq] at hp
          exact hw ⟨t, ht, hp.1, hp.2⟩
        rw [hz]

/-- Witness for C8 at concrete stores: the empty store yields the empty
summary and the single nothing-found line, and a store with one wip task
in `"c"` yields a summary row for `"c"` with both counts reported. -/
theorem c8_witness :
    (statusSummary ⟨[], 1⟩ = [] ∧
      statusOutput ⟨[], 1⟩ = ["No tasks found in any category"])
    ∧ ∃ r ∈ statusSummary
        ⟨[⟨1, "a", "c", none, none, .wip, none, 0, 0⟩], 2⟩,
        r.category = "c" ∧
        r.wipCount = [(⟨1, "a", "c", none, none, .wip, none, 0, 0⟩ : Task)].countP
          (fun t => t.category == "c" && t.status == Status.wip) ∧
        r.doneCount = [(⟨1, "a", "c", none, none, .wip, none, 0, 0⟩ : Task)].countP
          (fun t => t.category == "c" && t.status == Status.done) := by
  constructor
  · exact (c8_status_summary ⟨[], 1⟩).1 rfl
  · exact (c8_status_summary
      ⟨[⟨1, "a", "c", none, none, .wip, none, 0, 0⟩], 2⟩).2 "c"
      ⟨⟨1, "a", "c", none, none, .wip, none, 0, 0⟩, by simp, rfl⟩

end LocalTask
